import Mathlib

/-!
Verification of the WER benchmark core (`transcription_benchmark/analysis/wer.py`).

The repository's own code (`calculate_wer`) validates its inputs, walks the
ground-truth mapping, scores each (file, model) pair whose hypothesis is
present and non-empty, and appends AVERAGE / MEDIAN summary rows.  The text
normalizer and the word-level alignment engine are delegated to the
third-party `jiwer` library (and the summary statistics to `pandas`), whose
sources are not part of this repository; those parts are modelled here from
the specification's description (five-step normalizer; unit-cost Levenshtein
DP table with backtrace classification preferring
match > substitution > deletion > insertion; WER = (S+D+I)/max(1,R);
column-wise mean / median ignoring absent values).
-/

namespace AsrBench

/-! ### Text normalizer (modelled from the spec) -/

/-- Modelled from the spec: step 1 of the normalizer, "lowercase the entire
string" ("no locale-aware casing, no Unicode normalization beyond simple
lowercase").  The repository delegates this to the third-party jiwer
`ToLowerCase` transform, whose source is not in this repository; we model the
simple ASCII case fold character by character. -/
def lowerChar (c : Char) : Char :=
  if 65 ≤ c.toNat ∧ c.toNat ≤ 90 then Char.ofNat (c.toNat + 32) else c

/-- Step 1: lowercase the entire string (as a character list). -/
def lowercaseStep (l : List Char) : List Char := l.map lowerChar

/-- Modelled from the spec: step 2 of the normalizer, "collapse runs of
whitespace to a single space" (jiwer `RemoveMultipleSpaces`).  The boolean
records whether the previous character was whitespace. -/
def collapseSpacesAux : Bool → List Char → List Char
  | _, [] => []
  | prev, c :: cs =>
    if c.isWhitespace then
      if prev then collapseSpacesAux true cs else ' ' :: collapseSpacesAux true cs
    else c :: collapseSpacesAux false cs

/-- Step 2: collapse whitespace runs to a single space. -/
def collapseStep (l : List Char) : List Char := collapseSpacesAux false l

/-- Step 3: strip leading and trailing whitespace (jiwer `Strip`). -/
def stripStep (l : List Char) : List Char :=
  ((l.dropWhile Char.isWhitespace).reverse.dropWhile Char.isWhitespace).reverse

/-- Modelled from the spec: the punctuation characters removed by step 4
(jiwer `RemovePunctuation`), modelled as the ASCII punctuation blocks. -/
def isPunct (c : Char) : Bool :=
  (33 ≤ c.toNat && c.toNat ≤ 47) || (58 ≤ c.toNat && c.toNat ≤ 64) ||
    (91 ≤ c.toNat && c.toNat ≤ 96) || (123 ≤ c.toNat && c.toNat ≤ 126)

/-- Step 4: remove punctuation characters. -/
def removePunctStep (l : List Char) : List Char := l.filter (fun c => !isPunct c)

/-- Step 5 helper: split on whitespace into words, dropping empty words; the
first argument accumulates the current word reversed. -/
def wordsAux : List Char → List Char → List String
  | cur, [] => if cur.isEmpty then [] else [String.mk cur.reverse]
  | cur, c :: cs =>
    if c.isWhitespace then
      if cur.isEmpty then wordsAux [] cs else String.mk cur.reverse :: wordsAux [] cs
    else wordsAux (c :: cur) cs

/-- Step 5: split into a list of word tokens (splitting on whitespace),
jiwer `ReduceToListOfListOfWords`. -/
def splitStep (l : List Char) : List String := wordsAux [] l

/-- Modelled from the spec: the full normalizer — the five transforms in the
fixed order lowercase, collapse whitespace, strip, remove punctuation, split
(the jiwer `Compose` pipeline built in `calculate_wer`). -/
def normalize (s : String) : List String :=
  splitStep (removePunctStep (stripStep (collapseStep (lowercaseStep s.data))))

/-! ### Alignment engine (modelled from the spec) -/

/-- The edit counts tallied along the backtrace path. -/
structure AlignmentCounts where
  hits : Nat
  substitutions : Nat
  deletions : Nat
  insertions : Nat
deriving DecidableEq

/-- Modelled from the spec: row `i+1` of the DP cost table, given row `i` as
`prev`; `cellAux ref hyp prev i j` is the value of cell `(i+1, j)`. -/
def cellAux (ref hyp : List String) (prev : Nat → Nat) (i : Nat) : Nat → Nat
  | 0 => i + 1
  | j + 1 =>
    if ref.getD i "" = hyp.getD j "" then prev j
    else 1 + min (prev (j + 1)) (min (cellAux ref hyp prev i j) (prev j))

/-- Modelled from the spec: the DP cost table of the unit-cost Levenshtein
recurrence over word tokens; `cell ref hyp i j` is the minimum number of
edits turning the first `i` tokens of `ref` into the first `j` tokens of
`hyp`.  Base cases `cell i 0 = i`, `cell 0 j = j`; see `cell_succ_succ` for
the transition. -/
def cell (ref hyp : List String) : Nat → Nat → Nat
  | 0 => fun j => j
  | i + 1 => cellAux ref hyp (cell ref hyp i) i

/-- Modelled from the spec: the backtrace over row `i+1`, given the backtrace
results of row `i` as `prev`; preference order on ties is
match > substitution > deletion > insertion. -/
def backAux (ref hyp : List String) (prev : Nat → AlignmentCounts) (i : Nat) :
    Nat → AlignmentCounts
  | 0 =>
    let c := prev 0
    ⟨c.hits, c.substitutions, c.deletions + 1, c.insertions⟩
  | j + 1 =>
    if ref.getD i "" = hyp.getD j "" then
      let c := prev j
      ⟨c.hits + 1, c.substitutions, c.deletions, c.insertions⟩
    else if cell ref hyp (i + 1) (j + 1) = cell ref hyp i j + 1 then
      let c := prev j
      ⟨c.hits, c.substitutions + 1, c.deletions, c.insertions⟩
    else if cell ref hyp (i + 1) (j + 1) = cell ref hyp i (j + 1) + 1 then
      let c := prev (j + 1)
      ⟨c.hits, c.substitutions, c.deletions + 1, c.insertions⟩
    else
      let c := backAux ref hyp prev i j
      ⟨c.hits, c.substitutions, c.deletions, c.insertions + 1⟩

/-- Modelled from the spec: backtrace from cell `(i, j)` to `(0, 0)` following
whichever transition produced the minimum, preferring
match > substitution > deletion > insertion, tallying the edit classes. -/
def backtrace (ref hyp : List String) : Nat → Nat → AlignmentCounts
  | 0 => fun j => ⟨0, 0, 0, j⟩
  | i + 1 => backAux ref hyp (backtrace ref hyp i) i

/-- The result of `compute_metrics`: the classified edit counts together with
the word error rate (modelled on jiwer `WordOutput`). -/
structure AlignmentOutcome where
  hits : Nat
  substitutions : Nat
  deletions : Nat
  insertions : Nat
  wer : ℚ
deriving DecidableEq

/-- Modelled from the spec: `compute_metrics(reference_tokens,
hypothesis_tokens)` — run the backtrace from the final DP cell and derive
WER = (S + D + I) / max(1, len(reference_tokens)) (jiwer `process_words`
after both transforms have been applied). -/
def compute_metrics (ref hyp : List String) : AlignmentOutcome :=
  let c := backtrace ref hyp ref.length hyp.length
  ⟨c.hits, c.substitutions, c.deletions, c.insertions,
    ((c.substitutions + c.deletions + c.insertions : Nat) : ℚ) / max 1 (ref.length : ℚ)⟩

/-- Structural helper for `lev`: given `f = lev xs`, computes `lev (x :: xs)`. -/
def levAux (x : String) (f : List String → Nat) : List String → Nat
  | [] => f [] + 1
  | y :: ys => if x = y then f ys else 1 + min (f (y :: ys)) (min (levAux x f ys) (f ys))

/-- The unit-cost Levenshtein distance on token lists, in structural (suffix)
form; it is related to the spec's prefix-indexed DP table by
`cell_eq_lev_reverse`. -/
def lev : List String → List String → Nat
  | [] => fun ys => ys.length
  | x :: xs => levAux x (lev xs)

/-- Insert a token at position `k` of a token list (appending when `k` is past
the end), the hypothesis-side mutation of the spec's monotonicity property. -/
def insertTok (x : String) : Nat → List String → List String
  | 0, ys => x :: ys
  | _ + 1, [] => [x]
  | k + 1, y :: ys => y :: insertTok x k ys

/-! ### The evaluation operation (`calculate_wer` in
`transcription_benchmark/analysis/wer.py`) -/

/-- One row of the result table, keyed by the recording (file) key, holding
the per-model numeric columns that were populated for that file. -/
structure Row where
  file : String
  cols : List (String × ℚ)
deriving DecidableEq

/-- The columns written for one scored (file, model) pair, in the order of
`wer.py` lines 64–68; with `include_detailed_metrics = False` only the
`{model}_wer` column is written (lines 71–77). -/
def modelCols (detailed : Bool) (model : String) (o : AlignmentOutcome) :
    List (String × ℚ) :=
  if detailed then
    [(model ++ "_wer", o.wer), (model ++ "_insertions", (o.insertions : ℚ)),
     (model ++ "_deletions", (o.deletions : ℚ)),
     (model ++ "_substitutions", (o.substitutions : ℚ)),
     (model ++ "_hits", (o.hits : ℚ))]
  else [(model ++ "_wer", o.wer)]

/-- The columns one model contributes to one row, given the looked-up
hypothesis for that (file, model) pair: an absent or falsy (empty-string)
hypothesis contributes nothing (`if hypothesis:` on line 55 of `wer.py`). -/
def pairCols (detailed : Bool) (reference m : String) : Option String → List (String × ℚ)
  | some h =>
    if h = "" then []
    else modelCols detailed m (compute_metrics (normalize reference) (normalize h))
  | none => []

/-- The columns of the row for file `key` with reference text `reference`:
the inner loop of `calculate_wer` over the models. -/
def rowCols (detailed : Bool) (key reference : String) :
    List (String × List (String × String)) → List (String × ℚ)
  | [] => []
  | (m, hset) :: rest =>
    pairCols detailed reference m (List.lookup key hset) ++ rowCols detailed key reference rest

/-- The warning one model contributes while building one row: a pair whose
hypothesis is absent or falsy is logged (`logger.warning`, line 79). -/
def pairWarn (key m : String) : Option String → List (String × String)
  | some h => if h = "" then [(key, m)] else []
  | none => [(key, m)]

/-- The warning-level signals emitted while building the row for file `key`:
one `(key, model)` pair per model whose hypothesis is absent or falsy. -/
def rowWarnings (key : String) :
    List (String × List (String × String)) → List (String × String)
  | [] => []
  | (m, hset) :: rest =>
    pairWarn key m (List.lookup key hset) ++ rowWarnings key rest

/-- The numeric columns of the table (every column except the `file` key),
as selected by `df.select_dtypes(include=['number'])` on line 86. -/
def allNumericCols (rows : List Row) : List String :=
  (rows.flatMap (fun r => r.cols.map Prod.fst)).dedup

/-- The values present in column `c` across the given rows; rows where the
column is absent contribute nothing (pandas skips missing values). -/
def colValues (rows : List Row) (c : String) : List ℚ :=
  rows.filterMap (fun r => List.lookup c r.cols)

/-- Modelled from the spec: the column-wise arithmetic mean used for the
AVERAGE summary row (`df[numeric_cols].mean()`, computed by the third-party
pandas library, not part of this repository). -/
def mean (l : List ℚ) : ℚ := l.sum / (l.length : ℚ)

/-- Modelled from the spec: the column-wise median used for the MEDIAN
summary row (`df[numeric_cols].median()`, computed by the third-party pandas
library): the middle element of the sorted values, or the average of the two
middle elements when their number is even. -/
def median (l : List ℚ) : ℚ :=
  let s := l.mergeSort (fun a b => decide (a ≤ b))
  if l.length % 2 = 1 then s.getD (l.length / 2) 0
  else (s.getD (l.length / 2 - 1) 0 + s.getD (l.length / 2) 0) / 2

/-- A synthetic summary row: the given statistic of each numeric column,
taken over the values present in the per-recording rows. -/
def summaryRow (name : String) (f : List ℚ → ℚ) (rows : List Row) : Row :=
  ⟨name, (allNumericCols rows).map (fun c => (c, f (colValues rows c)))⟩

/-- The function `calculate_wer` from `wer.py`: validate that neither input mapping is
empty (lines 34–37, `ValueError`), build one row per ground-truth entry
(lines 50–81), append the AVERAGE and MEDIAN summary rows (lines 86–93) and
key the table by file (line 96).  The result also carries the list of
missing-hypothesis warnings emitted along the way. -/
def calculate_wer (ground_truth : List (String × String))
    (hyps : List (String × List (String × String))) (detailed : Bool) :
    Except String (List Row × List (String × String)) :=
  if ground_truth = [] then Except.error "Ground truth dictionary is empty"
  else if hyps = [] then Except.error "Hypotheses dictionary is empty"
  else
    let rows := ground_truth.map
      (fun p => (⟨p.1, rowCols detailed p.1 p.2 hyps⟩ : Row))
    Except.ok
      (rows ++ [summaryRow "AVERAGE" mean rows, summaryRow "MEDIAN" median rows],
        ground_truth.flatMap (fun p => rowWarnings p.1 hyps))

/-- The five column-name endings a model can write, in the order of
`wer.py` lines 64–68. -/
def colSuffixes : List String :=
  ["_wer", "_insertions", "_deletions", "_substitutions", "_hits"]

/-! ### Basic equations for `cell`, `backtrace` and `lev` -/

theorem cell_zero_left (ref hyp : List String) (j : Nat) : cell ref hyp 0 j = j := rfl

theorem cell_zero_right (ref hyp : List String) : ∀ i, cell ref hyp i 0 = i
  | 0 => rfl
  | _ + 1 => rfl

/-- The spec's transition for the DP table: a hit costs nothing, otherwise
1 + min(deletion, insertion, substitution). -/
theorem cell_succ_succ (ref hyp : List String) (i j : Nat) :
    cell ref hyp (i + 1) (j + 1) =
      if ref.getD i "" = hyp.getD j "" then cell ref hyp i j
      else 1 + min (cell ref hyp i (j + 1))
        (min (cell ref hyp (i + 1) j) (cell ref hyp i j)) := rfl

theorem backtrace_zero_left (ref hyp : List String) (j : Nat) :
    backtrace ref hyp 0 j = ⟨0, 0, 0, j⟩ := rfl

theorem backtrace_succ_zero (ref hyp : List String) (i : Nat) :
    backtrace ref hyp (i + 1) 0 =
      ⟨(backtrace ref hyp i 0).hits, (backtrace ref hyp i 0).substitutions,
        (backtrace ref hyp i 0).deletions + 1, (backtrace ref hyp i 0).insertions⟩ := rfl

theorem backtrace_succ_succ (ref hyp : List String) (i j : Nat) :
    backtrace ref hyp (i + 1) (j + 1) =
      if ref.getD i "" = hyp.getD j "" then
        ⟨(backtrace ref hyp i j).hits + 1, (backtrace ref hyp i j).substitutions,
          (backtrace ref hyp i j).deletions, (backtrace ref hyp i j).insertions⟩
      else if cell ref hyp (i + 1) (j + 1) = cell ref hyp i j + 1 then
        ⟨(backtrace ref hyp i j).hits, (backtrace ref hyp i j).substitutions + 1,
          (backtrace ref hyp i j).deletions, (backtrace ref hyp i j).insertions⟩
      else if cell ref hyp (i + 1) (j + 1) = cell ref hyp i (j + 1) + 1 then
        ⟨(backtrace ref hyp i (j + 1)).hits, (backtrace ref hyp i (j + 1)).substitutions,
          (backtrace ref hyp i (j + 1)).deletions + 1, (backtrace ref hyp i (j + 1)).insertions⟩
      else
        ⟨(backtrace ref hyp (i + 1) j).hits, (backtrace ref hyp (i + 1) j).substitutions,
          (backtrace ref hyp (i + 1) j).deletions,
          (backtrace ref hyp (i + 1) j).insertions + 1⟩ := rfl

theorem lev_nil_left (ys : List String) : lev [] ys = ys.length := rfl

theorem lev_nil_right : ∀ xs : List String, lev xs [] = xs.length
  | [] => rfl
  | x :: xs => by
    show levAux x (lev xs) [] = xs.length + 1
    simp [levAux, lev_nil_right xs]

theorem lev_cons_nil (x : String) (xs : List String) : lev (x :: xs) [] = xs.length + 1 := by
  simpa using lev_nil_right (x :: xs)

theorem lev_cons_cons (x y : String) (xs ys : List String) :
    lev (x :: xs) (y :: ys) =
      if x = y then lev xs ys
      else 1 + min (lev xs (y :: ys)) (min (lev (x :: xs) ys) (lev xs ys)) := rfl

/-- Adding or removing one leading token on either side changes the
Levenshtein distance by at most one (all four adjacency bounds, proved by
simultaneous strong induction on the total length). -/
theorem lev_adjacent :
    ∀ n, ∀ xs ys : List String, xs.length + ys.length ≤ n →
      (∀ y, lev xs (y :: ys) ≤ 1 + lev xs ys) ∧
      (∀ y, lev xs ys ≤ 1 + lev xs (y :: ys)) ∧
      (∀ x, lev (x :: xs) ys ≤ 1 + lev xs ys) ∧
      (∀ x, lev xs ys ≤ 1 + lev (x :: xs) ys) := by
  intro n
  induction n with
  | zero =>
    intro xs ys h
    have hx : xs = [] := by cases xs <;> simp_all
    have hy : ys = [] := by cases ys <;> simp_all
    subst hx; subst hy
    refine ⟨fun y => ?_, fun y => ?_, fun x => ?_, fun x => ?_⟩ <;>
      simp [lev_nil_left, lev_cons_nil, lev_nil_right]
  | succ n ih =>
    intro xs ys h
    refine ⟨fun y => ?_, fun y => ?_, fun x => ?_, fun x => ?_⟩
    · cases xs with
      | nil => simp only [lev_nil_left, List.length_cons]; omega
      | cons a as =>
        rw [lev_cons_cons]
        by_cases hay : a = y
        · simp only [if_pos hay]
          exact (ih as ys (by simp only [List.length_cons] at h; omega)).2.2.2 a
        · simp only [if_neg hay]
          omega
    · cases xs with
      | nil => simp only [lev_nil_left, List.length_cons]; omega
      | cons a as =>
        rw [lev_cons_cons]
        by_cases hay : a = y
        · simp only [if_pos hay]
          exact (ih as ys (by simp only [List.length_cons] at h; omega)).2.2.1 a
        · simp only [if_neg hay]
          have h3 := (ih as ys (by simp only [List.length_cons] at h; omega)).2.2.1 a
          have h2 := (ih as ys (by simp only [List.length_cons] at h; omega)).2.1 y
          omega
    · cases ys with
      | nil => rw [lev_cons_nil, lev_nil_right]; omega
      | cons b bs =>
        rw [lev_cons_cons]
        by_cases hxb : x = b
        · simp only [if_pos hxb]
          exact (ih xs bs (by simp only [List.length_cons] at h; omega)).2.1 b
        · simp only [if_neg hxb]
          omega
    · cases ys with
      | nil => rw [lev_nil_right, lev_cons_nil]; omega
      | cons b bs =>
        rw [lev_cons_cons]
        by_cases hxb : x = b
        · simp only [if_pos hxb]
          exact (ih xs bs (by simp only [List.length_cons] at h; omega)).1 b
        · simp only [if_neg hxb]
          have h1 := (ih xs bs (by simp only [List.length_cons] at h; omega)).1 b
          have h4 := (ih xs bs (by simp only [List.length_cons] at h; omega)).2.2.2 x
          omega

theorem lev_ins_le (xs ys : List String) (y : String) : lev xs (y :: ys) ≤ 1 + lev xs ys :=
  (lev_adjacent (xs.length + ys.length) xs ys le_rfl).1 y

theorem lev_le_ins (xs ys : List String) (y : String) : lev xs ys ≤ 1 + lev xs (y :: ys) :=
  (lev_adjacent (xs.length + ys.length) xs ys le_rfl).2.1 y

theorem lev_del_le (xs ys : List String) (x : String) : lev (x :: xs) ys ≤ 1 + lev xs ys :=
  (lev_adjacent (xs.length + ys.length) xs ys le_rfl).2.2.1 x

theorem lev_le_del (xs ys : List String) (x : String) : lev xs ys ≤ 1 + lev (x :: xs) ys :=
  (lev_adjacent (xs.length + ys.length) xs ys le_rfl).2.2.2 x

/-! ### Inserting one token into the hypothesis -/

theorem insertTok_length (x : String) : ∀ (k : Nat) (ys : List String),
    (insertTok x k ys).length = ys.length + 1
  | 0, ys => by simp [insertTok]
  | _ + 1, [] => by simp [insertTok]
  | k + 1, y :: ys => by simp [insertTok, insertTok_length x k ys]

theorem insertTok_append (x : String) : ∀ l r : List String,
    insertTok x l.length (l ++ r) = l ++ x :: r
  | [], _ => rfl
  | a :: l, r => by
    show a :: insertTok x l.length (l ++ r) = a :: (l ++ x :: r)
    rw [insertTok_append x l r]

/-- Inserting one token anywhere in the hypothesis raises the Levenshtein
distance by at most one. -/
theorem lev_insertTok_le :
    ∀ n (ref hyp : List String) (k : Nat) (x : String), ref.length + hyp.length ≤ n →
      lev ref (insertTok x k hyp) ≤ 1 + lev ref hyp := by
  intro n
  induction n with
  | zero =>
    intro ref hyp k x h
    have hr : ref = [] := by cases ref <;> simp_all
    have hh : hyp = [] := by cases hyp <;> simp_all
    subst hr; subst hh
    rw [lev_nil_left, lev_nil_left, insertTok_length]
    omega
  | succ n ih =>
    intro ref hyp k x h
    cases ref with
    | nil => rw [lev_nil_left, lev_nil_left, insertTok_length]; omega
    | cons r rs =>
      cases k with
      | zero =>
        rw [show insertTok x 0 hyp = x :: hyp from rfl, lev_cons_cons]
        by_cases hrx : r = x
        · simp only [if_pos hrx]
          exact lev_le_del rs hyp r
        · simp only [if_neg hrx]
          omega
      | succ k =>
        cases hyp with
        | nil =>
          rw [show insertTok x (k + 1) ([] : List String) = [x] from rfl]
          rw [show ([x] : List String) = x :: [] from rfl, lev_cons_cons, lev_cons_nil]
          by_cases hrx : r = x
          · simp only [if_pos hrx]
            rw [lev_nil_right]
            omega
          · simp only [if_neg hrx]
            rw [lev_nil_right]
            omega
        | cons hh hs =>
          rw [show insertTok x (k + 1) (hh :: hs) = hh :: insertTok x k hs from rfl,
            lev_cons_cons, lev_cons_cons]
          by_cases hrh : r = hh
          · simp only [if_pos hrh]
            exact ih rs hs k x (by simp only [List.length_cons] at h; omega)
          · simp only [if_neg hrh]
            have h1 : lev rs (hh :: insertTok x k hs) ≤ 1 + lev rs (hh :: hs) := by
              rw [show hh :: insertTok x k hs = insertTok x (k + 1) (hh :: hs) from rfl]
              exact ih rs (hh :: hs) (k + 1) x
                (by simp only [List.length_cons] at h ⊢; omega)
            have h2 : lev (r :: rs) (insertTok x k hs) ≤ 1 + lev (r :: rs) hs :=
              ih (r :: rs) hs k x (by simp only [List.length_cons] at h ⊢; omega)
            have h3 : lev rs (insertTok x k hs) ≤ 1 + lev rs hs :=
              ih rs hs k x (by simp only [List.length_cons] at h; omega)
            omega

/-- Inserting one token that occurs nowhere in the reference never lowers the
Levenshtein distance. -/
theorem lev_le_insertTok :
    ∀ n (ref hyp : List String) (k : Nat) (x : String), ref.length + hyp.length ≤ n →
      x ∉ ref → lev ref hyp ≤ lev ref (insertTok x k hyp) := by
  intro n
  induction n with
  | zero =>
    intro ref hyp k x h _
    have hr : ref = [] := by cases ref <;> simp_all
    have hh : hyp = [] := by cases hyp <;> simp_all
    subst hr; subst hh
    rw [lev_nil_left, lev_nil_left, insertTok_length]
    omega
  | succ n ih =>
    intro ref hyp k x h hx
    cases ref with
    | nil => rw [lev_nil_left, lev_nil_left, insertTok_length]; omega
    | cons r rs =>
      have hrx : ¬ (r = x) := fun e => hx (by simp [e])
      have hxrs : x ∉ rs := fun e => hx (List.mem_cons_of_mem r e)
      cases k with
      | zero =>
        rw [show insertTok x 0 hyp = x :: hyp from rfl, lev_cons_cons]
        simp only [if_neg hrx]
        have h1 : lev rs hyp ≤ lev rs (x :: hyp) := by
          rw [show x :: hyp = insertTok x 0 hyp from rfl]
          exact ih rs hyp 0 x (by simp only [List.length_cons] at h; omega) hxrs
        have h2 : lev (r :: rs) hyp ≤ 1 + lev rs hyp := lev_del_le rs hyp r
        omega
      | succ k =>
        cases hyp with
        | nil =>
          rw [show insertTok x (k + 1) ([] : List String) = [x] from rfl]
          rw [show ([x] : List String) = x :: [] from rfl, lev_cons_cons, lev_cons_nil]
          simp only [if_neg hrx]
          rw [lev_nil_right]
          have h1 : lev rs [] ≤ lev rs [x] := by
            rw [show ([x] : List String) = insertTok x 0 [] from rfl]
            exact ih rs [] 0 x (by simp only [List.length_cons] at h; omega) hxrs
          rw [lev_nil_right] at h1
          omega
        | cons hh hs =>
          rw [show insertTok x (k + 1) (hh :: hs) = hh :: insertTok x k hs from rfl,
            lev_cons_cons, lev_cons_cons]
          by_cases hrh : r = hh
          · simp only [if_pos hrh]
            exact ih rs hs k x (by simp only [List.length_cons] at h; omega) hxrs
          · simp only [if_neg hrh]
            have h1 : lev rs (hh :: hs) ≤ lev rs (hh :: insertTok x k hs) := by
              rw [show hh :: insertTok x k hs = insertTok x (k + 1) (hh :: hs) from rfl]
              exact ih rs (hh :: hs) (k + 1) x
                (by simp only [List.length_cons] at h ⊢; omega) hxrs
            have h2 : lev (r :: rs) hs ≤ lev (r :: rs) (insertTok x k hs) :=
              ih (r :: rs) hs k x (by simp only [List.length_cons] at h ⊢; omega) hx
            have h3 : lev rs hs ≤ lev rs (insertTok x k hs) :=
              ih rs hs k x (by simp only [List.length_cons] at h; omega) hxrs
            omega

/-! ### The DP table computes the Levenshtein distance -/

theorem take_reverse_succ (l : List String) (i : Nat) (h : i < l.length) :
    (l.take (i + 1)).reverse = l.getD i "" :: (l.take i).reverse := by
  rw [List.take_succ, List.getElem?_eq_getElem h, List.getD_eq_getElem l "" h]
  simp

/-- The spec's prefix-indexed DP table agrees with the structural Levenshtein
distance of the reversed prefixes. -/
theorem cell_eq_lev (ref hyp : List String) :
    ∀ i j, i ≤ ref.length → j ≤ hyp.length →
      cell ref hyp i j = lev ((ref.take i).reverse) ((hyp.take j).reverse) := by
  intro i
  induction i with
  | zero =>
    intro j _ hj
    rw [cell_zero_left, List.take_zero, List.reverse_nil, lev_nil_left]
    simp [List.length_take]
    omega
  | succ i ihi =>
    intro j
    induction j with
    | zero =>
      intro hi _
      rw [cell_zero_right, List.take_zero, List.reverse_nil, lev_nil_right]
      simp [List.length_take]
      omega
    | succ j ihj =>
      intro hi hj
      have hi' : i < ref.length := by omega
      have hj' : j < hyp.length := by omega
      rw [cell_succ_succ, take_reverse_succ ref i hi', take_reverse_succ hyp j hj',
        lev_cons_cons]
      have e1 : cell ref hyp i (j + 1) =
          lev ((ref.take i).reverse) (hyp.getD j "" :: (hyp.take j).reverse) := by
        rw [ihi (j + 1) (by omega) hj, take_reverse_succ hyp j hj']
      have e2 : cell ref hyp (i + 1) j =
          lev (ref.getD i "" :: (ref.take i).reverse) ((hyp.take j).reverse) := by
        rw [ihj hi (by omega), take_reverse_succ ref i hi']
      have e3 : cell ref hyp i j = lev ((ref.take i).reverse) ((hyp.take j).reverse) :=
        ihi j (by omega) (by omega)
      rw [e1, e2, e3]

/-- The final DP cell is the Levenshtein distance between the (reversed)
token sequences. -/
theorem cell_len_len (ref hyp : List String) :
    cell ref hyp ref.length hyp.length = lev ref.reverse hyp.reverse := by
  rw [cell_eq_lev ref hyp ref.length hyp.length le_rfl le_rfl, List.take_length,
    List.take_length]

/-! ### Backtrace invariants -/

/-- Total edit count invariant: the backtrace's substitutions + deletions +
insertions always equal the DP cell it started from. -/
theorem backtrace_total (ref hyp : List String) :
    ∀ i j, (backtrace ref hyp i j).substitutions + (backtrace ref hyp i j).deletions +
      (backtrace ref hyp i j).insertions = cell ref hyp i j := by
  intro i
  induction i with
  | zero => intro j; rw [backtrace_zero_left, cell_zero_left]; simp
  | succ i ihi =>
    intro j
    induction j with
    | zero =>
      rw [backtrace_succ_zero, cell_zero_right]
      have h0 := ihi 0
      rw [cell_zero_right] at h0
      simp only [AlignmentCounts.substitutions, AlignmentCounts.deletions,
        AlignmentCounts.insertions]
      omega
    | succ j ihj =>
      rw [backtrace_succ_succ]
      by_cases hc : ref.getD i "" = hyp.getD j ""
      · simp only [if_pos hc]
        have hcell := cell_succ_succ ref hyp i j
        rw [if_pos hc] at hcell
        have h0 := ihi j
        omega
      · simp only [if_neg hc]
        by_cases h1 : cell ref hyp (i + 1) (j + 1) = cell ref hyp i j + 1
        · simp only [if_pos h1]
          have h0 := ihi j
          omega
        · simp only [if_neg h1]
          by_cases h2 : cell ref hyp (i + 1) (j + 1) = cell ref hyp i (j + 1) + 1
          · simp only [if_pos h2]
            have h0 := ihi (j + 1)
            omega
          · simp only [if_neg h2]
            have hcell := cell_succ_succ ref hyp i j
            rw [if_neg hc] at hcell
            omega

/-- Along the backtrace, hits + substitutions + deletions consume exactly the
reference prefix and hits + substitutions + insertions consume exactly the
hypothesis prefix. -/
theorem backtrace_sides (ref hyp : List String) :
    ∀ i j, ((backtrace ref hyp i j).hits + (backtrace ref hyp i j).substitutions +
        (backtrace ref hyp i j).deletions = i) ∧
      ((backtrace ref hyp i j).hits + (backtrace ref hyp i j).substitutions +
        (backtrace ref hyp i j).insertions = j) := by
  intro i
  induction i with
  | zero => intro j; rw [backtrace_zero_left]; exact ⟨rfl, by simp⟩
  | succ i ihi =>
    intro j
    induction j with
    | zero =>
      rw [backtrace_succ_zero]
      have h0 := ihi 0
      simp only [AlignmentCounts.hits, AlignmentCounts.substitutions,
        AlignmentCounts.deletions, AlignmentCounts.insertions] at h0 ⊢
      omega
    | succ j ihj =>
      rw [backtrace_succ_succ]
      by_cases hc : ref.getD i "" = hyp.getD j ""
      · simp only [if_pos hc]
        have h0 := ihi j
        omega
      · simp only [if_neg hc]
        by_cases h1 : cell ref hyp (i + 1) (j + 1) = cell ref hyp i j + 1
        · simp only [if_pos h1]
          have h0 := ihi j
          omega
        · simp only [if_neg h1]
          by_cases h2 : cell ref hyp (i + 1) (j + 1) = cell ref hyp i (j + 1) + 1
          · simp only [if_pos h2]
            have h0 := ihi (j + 1)
            omega
          · simp only [if_neg h2]
            omega

/-- On the diagonal of a self-comparison every step is a hit. -/
theorem backtrace_diag (t : List String) : ∀ i, backtrace t t i i = ⟨i, 0, 0, 0⟩
  | 0 => rfl
  | i + 1 => by
    rw [backtrace_succ_succ, if_pos rfl, backtrace_diag t i]

/-! ### Claim theorems about the normalizer and the alignment engine -/

/-- Claim C3: the normalizer is a pure function applying exactly the five
transforms lowercase, collapse-whitespace, strip, remove-punctuation, split
in this fixed order to any input string, and
normalize "Hello,  World!" = normalize "hello world" = ["hello", "world"]. -/
theorem normalize_five_steps_in_order :
    (∀ s : String, normalize s =
      splitStep (removePunctStep (stripStep (collapseStep (lowercaseStep s.data))))) ∧
    normalize "Hello,  World!" = ["hello", "world"] ∧
    normalize "hello world" = ["hello", "world"] :=
  ⟨fun _ => rfl, by decide, by decide⟩

/-- Claim C2: the substitutions + deletions + insertions classified by the
backtrace of `compute_metrics` equal the final DP table cell
`cell (len ref) (len hyp)` of the unit-cost Levenshtein recurrence. -/
theorem compute_metrics_total_eq_final_cell (ref hyp : List String) :
    (compute_metrics ref hyp).substitutions + (compute_metrics ref hyp).deletions +
      (compute_metrics ref hyp).insertions = cell ref hyp ref.length hyp.length :=
  backtrace_total ref hyp ref.length hyp.length

/-- Claim C8: comparing any token sequence with itself yields
substitutions = deletions = insertions = 0, hits = length, and WER = 0
(also for the empty sequence, by the zero-reference convention). -/
theorem compute_metrics_identity (t : List String) :
    compute_metrics t t = ⟨t.length, 0, 0, 0, 0⟩ := by
  simp [compute_metrics, backtrace_diag t t.length]

/-- Claim C9 counterexample: for reference ["a"], hypothesis [] and the
non-matching extra token "b", inserting "b" into the hypothesis does not
increase the insertions count by one with the other counts unchanged (the
backtrace classifies the new pair as one substitution instead). -/
theorem insert_nonmatching_cex :
    "b" ∉ (["a"] : List String) ∧
    ¬ ((compute_metrics ["a"] (insertTok "b" 0 [])).insertions =
        (compute_metrics ["a"] []).insertions + 1 ∧
      (compute_metrics ["a"] (insertTok "b" 0 [])).substitutions =
        (compute_metrics ["a"] []).substitutions ∧
      (compute_metrics ["a"] (insertTok "b" 0 [])).deletions =
        (compute_metrics ["a"] []).deletions ∧
      (compute_metrics ["a"] (insertTok "b" 0 [])).hits =
        (compute_metrics ["a"] []).hits) := by
  constructor
  · decide
  · decide

/-- Claim C9 (amended): inserting one extra token that matches no reference
token into the hypothesis never decreases the total edit count
substitutions + deletions + insertions, and increases it by at most one (the
individual class counts may change, as the counterexample shows). -/
theorem insert_nonmatching_total_bounds (ref l r : List String) (x : String)
    (hx : x ∉ ref) :
    (compute_metrics ref (l ++ r)).substitutions +
        (compute_metrics ref (l ++ r)).deletions +
        (compute_metrics ref (l ++ r)).insertions ≤
      (compute_metrics ref (l ++ x :: r)).substitutions +
        (compute_metrics ref (l ++ x :: r)).deletions +
        (compute_metrics ref (l ++ x :: r)).insertions ∧
    (compute_metrics ref (l ++ x :: r)).substitutions +
        (compute_metrics ref (l ++ x :: r)).deletions +
        (compute_metrics ref (l ++ x :: r)).insertions ≤
      (compute_metrics ref (l ++ r)).substitutions +
        (compute_metrics ref (l ++ r)).deletions +
        (compute_metrics ref (l ++ r)).insertions + 1 := by
  have e0 : (compute_metrics ref (l ++ r)).substitutions +
      (compute_metrics ref (l ++ r)).deletions +
      (compute_metrics ref (l ++ r)).insertions =
      lev ref.reverse ((l ++ r).reverse) := by
    rw [← cell_len_len]
    exact backtrace_total ref (l ++ r) ref.length (l ++ r).length
  have e1 : (compute_metrics ref (l ++ x :: r)).substitutions +
      (compute_metrics ref (l ++ x :: r)).deletions +
      (compute_metrics ref (l ++ x :: r)).insertions =
      lev ref.reverse ((l ++ x :: r).reverse) := by
    rw [← cell_len_len]
    exact backtrace_total ref (l ++ x :: r) ref.length (l ++ x :: r).length
  have hrev : (l ++ x :: r).reverse = insertTok x r.reverse.length ((l ++ r).reverse) := by
    rw [List.reverse_append, List.reverse_append, List.reverse_cons, List.append_assoc,
      insertTok_append x r.reverse l.reverse]
    simp
  have hx' : x ∉ ref.reverse := by
    simpa using hx
  constructor
  · rw [e0, e1, hrev]
    exact lev_le_insertTok (ref.reverse.length + ((l ++ r).reverse).length) ref.reverse
      ((l ++ r).reverse) r.reverse.length x le_rfl hx'
  · rw [e0, e1, hrev]
    have := lev_insertTok_le (ref.reverse.length + ((l ++ r).reverse).length) ref.reverse
      ((l ++ r).reverse) r.reverse.length x le_rfl
    omega

/-- Claim C9 (amended) witness: the bounds instantiated at reference ["a"],
hypothesis ["a"] and extra token "b" inserted at the front. -/
theorem insert_nonmatching_total_bounds_witness :
    "b" ∉ (["a"] : List String) ∧
    ((compute_metrics ["a"] ([] ++ ["a"])).substitutions +
        (compute_metrics ["a"] ([] ++ ["a"])).deletions +
        (compute_metrics ["a"] ([] ++ ["a"])).insertions ≤
      (compute_metrics ["a"] ([] ++ "b" :: ["a"])).substitutions +
        (compute_metrics ["a"] ([] ++ "b" :: ["a"])).deletions +
        (compute_metrics ["a"] ([] ++ "b" :: ["a"])).insertions ∧
    (compute_metrics ["a"] ([] ++ "b" :: ["a"])).substitutions +
        (compute_metrics ["a"] ([] ++ "b" :: ["a"])).deletions +
        (compute_metrics ["a"] ([] ++ "b" :: ["a"])).insertions ≤
      (compute_metrics ["a"] ([] ++ ["a"])).substitutions +
        (compute_metrics ["a"] ([] ++ ["a"])).deletions +
        (compute_metrics ["a"] ([] ++ ["a"])).insertions + 1) :=
  ⟨by decide, insert_nonmatching_total_bounds ["a"] [] ["a"] "b" (by decide)⟩

/-! ### Helpers about association-list lookup and row construction -/

theorem lookup_cons_self {b : Type} (k : String) (v : b) (l : List (String × b)) :
    List.lookup k ((k, v) :: l) = some v := by
  simp [List.lookup]

theorem lookup_cons_ne {b : Type} (k a : String) (v : b) (l : List (String × b))
    (h : k ≠ a) : List.lookup k ((a, v) :: l) = List.lookup k l := by
  have hb : (k == a) = false := by
    simpa using h
  simp [List.lookup, hb]

/-- In a key-value list whose keys are distinct, a key determines its value. -/
theorem nodup_keys_value_unique {b : Type} :
    ∀ (l : List (String × b)) (m : String) (v w : b), (l.map Prod.fst).Nodup →
      (m, v) ∈ l → (m, w) ∈ l → v = w := by
  intro l
  induction l with
  | nil => intro m v w _ hv _; exact absurd hv (List.not_mem_nil _)
  | cons p rest ih =>
    intro m v w hnd hv hw
    have hnd' : p.1 ∉ rest.map Prod.fst := (List.nodup_cons.mp (by simpa using hnd)).1
    have hndr : (rest.map Prod.fst).Nodup := (List.nodup_cons.mp (by simpa using hnd)).2
    rcases List.mem_cons.mp hv with hv1 | hv1
    · rcases List.mem_cons.mp hw with hw1 | hw1
      · rw [← hv1] at hw1
        exact (Prod.mk.injEq _ _ _ _).mp hw1.symm |>.2
      · exfalso
        apply hnd'
        have : m = p.1 := by rw [← hv1]
        exact this ▸ List.mem_map.mpr ⟨(m, w), hw1, rfl⟩
    · rcases List.mem_cons.mp hw with hw1 | hw1
      · exfalso
        apply hnd'
        have : m = p.1 := by rw [← hw1]
        exact this ▸ List.mem_map.mpr ⟨(m, v), hv1, rfl⟩
      · exact ih m v w hndr hv1 hw1

theorem mem_modelCols_wer (detailed : Bool) (m : String) (o : AlignmentOutcome) :
    (m ++ "_wer", o.wer) ∈ modelCols detailed m o := by
  cases detailed <;> simp [modelCols]

theorem modelCols_name (detailed : Bool) (m : String) (o : AlignmentOutcome)
    (p : String × ℚ) (hp : p ∈ modelCols detailed m o) :
    ∃ s ∈ colSuffixes, p.1 = m ++ s := by
  cases detailed with
  | false =>
    simp [modelCols] at hp
    exact ⟨"_wer", by simp [colSuffixes], by rw [hp]⟩
  | true =>
    simp [modelCols] at hp
    rcases hp with h | h | h | h | h
    · exact ⟨"_wer", by simp [colSuffixes], by rw [h]⟩
    · exact ⟨"_insertions", by simp [colSuffixes], by rw [h]⟩
    · exact ⟨"_deletions", by simp [colSuffixes], by rw [h]⟩
    · exact ⟨"_substitutions", by simp [colSuffixes], by rw [h]⟩
    · exact ⟨"_hits", by simp [colSuffixes], by rw [h]⟩

/-- Every column a scored model writes ends up in the row. -/
theorem rowCols_of_scored (detailed : Bool) (k reference : String) :
    ∀ (hyps : List (String × List (String × String))) (m : String)
      (hset : List (String × String)) (h : String), (m, hset) ∈ hyps →
      List.lookup k hset = some h → h ≠ "" →
      ∀ p ∈ modelCols detailed m (compute_metrics (normalize reference) (normalize h)),
        p ∈ rowCols detailed k reference hyps := by
  intro hyps
  induction hyps with
  | nil => intro m hset h hm _ _ _ _; exact absurd hm (List.not_mem_nil _)
  | cons mh rest ih =>
    intro m hset h hm hlk hne p hp
    obtain ⟨m1, hset1⟩ := mh
    show p ∈ pairCols detailed reference m1 (List.lookup k hset1) ++
      rowCols detailed k reference rest
    rcases List.mem_cons.mp hm with hm1 | hm1
    · obtain ⟨e1, e2⟩ := Prod.mk.injEq m1 hset1 m hset ▸ hm1.symm
      subst e1; subst e2
      rw [hlk]
      show p ∈ pairCols detailed reference m1 (some h) ++ rowCols detailed k reference rest
      rw [show pairCols detailed reference m1 (some h) =
          if h = "" then []
          else modelCols detailed m1 (compute_metrics (normalize reference) (normalize h))
          from rfl, if_neg hne]
      exact List.mem_append_left _ hp
    · exact List.mem_append_right _ (ih m hset h hm1 hlk hne p hp)

/-- Conversely, every column of a row comes from some scored model. -/
theorem mem_rowCols (detailed : Bool) (k reference : String) :
    ∀ (hyps : List (String × List (String × String))) (p : String × ℚ),
      p ∈ rowCols detailed k reference hyps →
      ∃ m hset h, (m, hset) ∈ hyps ∧ List.lookup k hset = some h ∧ h ≠ "" ∧
        p ∈ modelCols detailed m (compute_metrics (normalize reference) (normalize h)) := by
  intro hyps
  induction hyps with
  | nil => intro p hp; exact absurd hp (List.not_mem_nil _)
  | cons mh rest ih =>
    intro p hp
    obtain ⟨m1, hset1⟩ := mh
    rcases List.mem_append.mp hp with hp1 | hp1
    · cases hl : List.lookup k hset1 with
      | none =>
        rw [hl] at hp1
        exact absurd hp1 (List.not_mem_nil _)
      | some h1 =>
        rw [hl] at hp1
        rw [show pairCols detailed reference m1 (some h1) =
            if h1 = "" then []
            else modelCols detailed m1 (compute_metrics (normalize reference) (normalize h1))
            from rfl] at hp1
        by_cases he : h1 = ""
        · rw [if_pos he] at hp1
          exact absurd hp1 (List.not_mem_nil _)
        · rw [if_neg he] at hp1
          exact ⟨m1, hset1, h1, List.mem_cons_self _ _, hl, he, hp1⟩
    · obtain ⟨m, hset, h, hh1, hh2, hh3, hh4⟩ := ih p hp1
      exact ⟨m, hset, h, List.mem_cons_of_mem _ hh1, hh2, hh3, hh4⟩

/-- A model whose hypothesis for this file is absent or falsy gets a
missing-hypothesis warning for this file. -/
theorem mem_rowWarnings (k : String) :
    ∀ (hyps : List (String × List (String × String))) (m : String)
      (hset : List (String × String)), (m, hset) ∈ hyps →
      (List.lookup k hset = none ∨ List.lookup k hset = some "") →
      (k, m) ∈ rowWarnings k hyps := by
  intro hyps
  induction hyps with
  | nil => intro m hset hm _; exact absurd hm (List.not_mem_nil _)
  | cons mh rest ih =>
    intro m hset hm hmiss
    obtain ⟨m1, hset1⟩ := mh
    show (k, m) ∈ pairWarn k m1 (List.lookup k hset1) ++ rowWarnings k rest
    rcases List.mem_cons.mp hm with hm1 | hm1
    · obtain ⟨e1, e2⟩ := Prod.mk.injEq m1 hset1 m hset ▸ hm1.symm
      subst e1; subst e2
      apply List.mem_append_left
      rcases hmiss with hmiss | hmiss
      · rw [hmiss]
        exact List.mem_singleton_self _
      · rw [hmiss]
        rw [show pairWarn k m1 (some "") = [(k, m1)] from rfl]
        exact List.mem_singleton_self _
    · exact List.mem_append_right _ (ih m hset hm1 hmiss)

/-- The five column-name suffixes are pairwise incomparable under the list
suffix order. -/
theorem colSuffixes_not_suffix :
    ∀ s ∈ colSuffixes, ∀ t ∈ colSuffixes, s ≠ t → ¬ (s.data <:+ t.data) := by
  decide

/-- A column name `m ++ s` with `s` one of the five suffixes determines both
the model name and the suffix. -/
theorem colName_inj (m m1 s s1 : String) (hs : s ∈ colSuffixes) (hs1 : s1 ∈ colSuffixes)
    (he : m ++ s = m1 ++ s1) : m = m1 ∧ s = s1 := by
  have hd : m.data ++ s.data = m1.data ++ s1.data := by
    rw [← String.data_append, ← String.data_append, he]
  have hsf : s.data <:+ m.data ++ s.data := List.suffix_append _ _
  have hsf1 : s1.data <:+ m.data ++ s.data := hd ▸ List.suffix_append _ _
  have hss : s = s1 := by
    by_contra hne
    rcases List.suffix_or_suffix_of_suffix hsf hsf1 with h | h
    · exact colSuffixes_not_suffix s hs s1 hs1 hne h
    · exact colSuffixes_not_suffix s1 hs1 s hs (Ne.symm hne) h
  refine ⟨?_, hss⟩
  apply String.ext
  have hd2 : m.data ++ s.data = m1.data ++ s.data := by rw [hd, hss]
  exact List.append_cancel_right hd2

/-! ### WER edge cases -/

theorem wer_nil_left (H : List String) : (compute_metrics [] H).wer = (H.length : ℚ) := by
  show ((((backtrace [] H 0 H.length).substitutions + (backtrace [] H 0 H.length).deletions +
      (backtrace [] H 0 H.length).insertions : Nat)) : ℚ) /
      max 1 ((([] : List String).length : Nat) : ℚ) = (H.length : ℚ)
  rw [backtrace_zero_left]
  norm_num

/-! ### Claim theorems about `calculate_wer` -/

/-- Claim C1: for every evaluated (reference, hypothesis) pair, the value
placed in the `{model}_wer` column is
(substitutions + deletions + insertions) / max(1, reference token count);
with an empty normalized reference it is 0 when the normalized hypothesis is
also empty and at least 1 (one error per hypothesis token) otherwise, with no
division by zero. -/
theorem wer_column_value (detailed : Bool) (hyps : List (String × List (String × String)))
    (k reference m : String) (hset : List (String × String)) (h : String)
    (hm : (m, hset) ∈ hyps) (hlk : List.lookup k hset = some h) (hne : h ≠ "") :
    ((m ++ "_wer", (compute_metrics (normalize reference) (normalize h)).wer) ∈
      rowCols detailed k reference hyps) ∧
    ((compute_metrics (normalize reference) (normalize h)).wer =
      (((compute_metrics (normalize reference) (normalize h)).substitutions +
        (compute_metrics (normalize reference) (normalize h)).deletions +
        (compute_metrics (normalize reference) (normalize h)).insertions : Nat) : ℚ) /
        max 1 ((normalize reference).length : ℚ)) ∧
    (normalize reference = [] → normalize h = [] →
      (compute_metrics (normalize reference) (normalize h)).wer = 0) ∧
    (normalize reference = [] → normalize h ≠ [] →
      (compute_metrics (normalize reference) (normalize h)).wer =
        ((normalize h).length : ℚ) ∧
      1 ≤ (compute_metrics (normalize reference) (normalize h)).wer) := by
  refine ⟨?_, rfl, ?_, ?_⟩
  · exact rowCols_of_scored detailed k reference hyps m hset h hm hlk hne _
      (mem_modelCols_wer detailed m _)
  · intro h1 h2
    rw [h1, h2, wer_nil_left]
    norm_num
  · intro h1 h2
    rw [h1, wer_nil_left]
    refine ⟨rfl, ?_⟩
    have : 1 ≤ (normalize h).length := List.length_pos.mpr h2
    exact_mod_cast this

/-- Claim C1 witness: the theorem applied to the one-file, one-model input
with key "k", reference "x" and hypothesis "x". -/
theorem wer_column_value_witness :
    (("m", [("k", "x")]) ∈ [("m", [("k", "x")])] ∧
      List.lookup "k" [("k", "x")] = some "x" ∧ "x" ≠ "") ∧
    (("m" ++ "_wer", (compute_metrics (normalize "x") (normalize "x")).wer) ∈
      rowCols true "k" "x" [("m", [("k", "x")])]) ∧
    ((compute_metrics (normalize "x") (normalize "x")).wer =
      (((compute_metrics (normalize "x") (normalize "x")).substitutions +
        (compute_metrics (normalize "x") (normalize "x")).deletions +
        (compute_metrics (normalize "x") (normalize "x")).insertions : Nat) : ℚ) /
        max 1 ((normalize "x").length : ℚ)) :=
  ⟨⟨by decide, by decide, by decide⟩,
    (wer_column_value true [("m", [("k", "x")])] "k" "x" "m" [("k", "x")] "x"
      (by decide) (by decide) (by decide)).1,
    (wer_column_value true [("m", [("k", "x")])] "k" "x" "m" [("k", "x")] "x"
      (by decide) (by decide) (by decide)).2.1⟩

/-- Claim C4: `calculate_wer` fails with the invalid-input error exactly when
the ground-truth mapping or the hypotheses mapping is empty, before any row
is built (no partial result), and succeeds on all non-empty inputs. -/
theorem calculate_wer_empty_inputs (gt : List (String × String))
    (hyps : List (String × List (String × String))) (detailed : Bool) :
    (calculate_wer [] hyps detailed =
      Except.error "Ground truth dictionary is empty") ∧
    (gt ≠ [] → calculate_wer gt [] detailed =
      Except.error "Hypotheses dictionary is empty") ∧
    (gt ≠ [] → hyps ≠ [] → ∃ out, calculate_wer gt hyps detailed = Except.ok out) := by
  refine ⟨by simp [calculate_wer], fun hg => by simp [calculate_wer, hg], fun hg hh => ?_⟩
  refine ⟨(gt.map (fun p => (⟨p.1, rowCols detailed p.1 p.2 hyps⟩ : Row)) ++
      [summaryRow "AVERAGE" mean (gt.map (fun p => (⟨p.1, rowCols detailed p.1 p.2 hyps⟩ : Row))),
        summaryRow "MEDIAN" median (gt.map (fun p => (⟨p.1, rowCols detailed p.1 p.2 hyps⟩ : Row)))],
      gt.flatMap fun p => rowWarnings p.1 hyps), ?_⟩
  simp [calculate_wer, hg, hh]

/-- Claim C4 witness: the error and success cases at the concrete one-file,
one-model inputs. -/
theorem calculate_wer_empty_inputs_witness :
    calculate_wer [] [("m", [("k", "x")])] true =
      Except.error "Ground truth dictionary is empty" ∧
    calculate_wer [("k", "x")] [] true =
      Except.error "Hypotheses dictionary is empty" ∧
    ∃ out, calculate_wer [("k", "x")] [("m", [("k", "x")])] true = Except.ok out :=
  ⟨(calculate_wer_empty_inputs [("k", "x")] [("m", [("k", "x")])] true).1,
    (calculate_wer_empty_inputs [("k", "x")] [("m", [("k", "x")])] true).2.1 (by decide),
    (calculate_wer_empty_inputs [("k", "x")] [("m", [("k", "x")])] true).2.2
      (by decide) (by decide)⟩

/-- Core of the missing-hypothesis behaviour, shared by the absent-key and
falsy-value cases: the pair is warned about, its columns are absent from the
row, and the run continues with every other scored pair evaluated. -/
theorem skip_core (detailed : Bool) (gt : List (String × String))
    (hyps : List (String × List (String × String))) (k reference m : String)
    (hset : List (String × String)) (hgt : (k, reference) ∈ gt) (hm : (m, hset) ∈ hyps)
    (hnodup : (hyps.map Prod.fst).Nodup)
    (hmiss : List.lookup k hset = none ∨ List.lookup k hset = some "") :
    ∃ rows warns,
      calculate_wer gt hyps detailed =
        Except.ok (rows ++ [summaryRow "AVERAGE" mean rows, summaryRow "MEDIAN" median rows],
          warns) ∧
      (⟨k, rowCols detailed k reference hyps⟩ : Row) ∈ rows ∧
      (k, m) ∈ warns ∧
      (∀ s ∈ colSuffixes, ∀ v : ℚ, (m ++ s, v) ∉ rowCols detailed k reference hyps) ∧
      (∀ k2 r2 m2 hset2 h2, (k2, r2) ∈ gt → (m2, hset2) ∈ hyps →
        List.lookup k2 hset2 = some h2 → h2 ≠ "" →
        ((m2 ++ "_wer", (compute_metrics (normalize r2) (normalize h2)).wer) ∈
          rowCols detailed k2 r2 hyps ∧
        (⟨k2, rowCols detailed k2 r2 hyps⟩ : Row) ∈ rows)) := by
  have hg : gt ≠ [] := List.ne_nil_of_mem hgt
  have hh : hyps ≠ [] := List.ne_nil_of_mem hm
  refine ⟨gt.map (fun p => (⟨p.1, rowCols detailed p.1 p.2 hyps⟩ : Row)),
    gt.flatMap (fun p => rowWarnings p.1 hyps), ?_, ?_, ?_, ?_, ?_⟩
  · simp [calculate_wer, hg, hh]
  · exact List.mem_map.mpr ⟨(k, reference), hgt, rfl⟩
  · exact List.mem_flatMap.mpr ⟨(k, reference), hgt, mem_rowWarnings k hyps m hset hm hmiss⟩
  · intro s hs v hmem
    obtain ⟨m1, hset1, h1, hmem1, hlk1, hne1, hp1⟩ :=
      mem_rowCols detailed k reference hyps _ hmem
    obtain ⟨s1, hs1, hname⟩ := modelCols_name detailed m1 _ _ hp1
    obtain ⟨hmm, _⟩ := colName_inj m m1 s s1 hs hs1 hname
    rw [← hmm] at hmem1
    have heq : hset = hset1 := nodup_keys_value_unique hyps m hset hset1 hnodup hm hmem1
    rw [← heq] at hlk1
    rcases hmiss with h0 | h0
    · rw [h0] at hlk1
      exact Option.noConfusion hlk1
    · rw [h0] at hlk1
      exact hne1 (Option.some.inj hlk1).symm
  · intro k2 r2 m2 hset2 h2 hk2 hm2 hlk2 hne2
    exact ⟨rowCols_of_scored detailed k2 r2 hyps m2 hset2 h2 hm2 hlk2 hne2 _
        (mem_modelCols_wer detailed m2 _),
      List.mem_map.mpr ⟨(k2, r2), hk2, rfl⟩⟩

/-- Claim C5: a (file, model) pair whose model has no hypothesis entry for
that file gets a warning-level signal, all `{model}_*` columns are absent
from that row (not zero), the run is not aborted, and every other scored
(file, model) pair is still evaluated. -/
theorem missing_hypothesis_skipped (detailed : Bool) (gt : List (String × String))
    (hyps : List (String × List (String × String))) (k reference m : String)
    (hset : List (String × String)) (hgt : (k, reference) ∈ gt) (hm : (m, hset) ∈ hyps)
    (hnodup : (hyps.map Prod.fst).Nodup)
    (hmiss : List.lookup k hset = none) :
    ∃ rows warns,
      calculate_wer gt hyps detailed =
        Except.ok (rows ++ [summaryRow "AVERAGE" mean rows, summaryRow "MEDIAN" median rows],
          warns) ∧
      (⟨k, rowCols detailed k reference hyps⟩ : Row) ∈ rows ∧
      (k, m) ∈ warns ∧
      (∀ s ∈ colSuffixes, ∀ v : ℚ, (m ++ s, v) ∉ rowCols detailed k reference hyps) ∧
      (∀ k2 r2 m2 hset2 h2, (k2, r2) ∈ gt → (m2, hset2) ∈ hyps →
        List.lookup k2 hset2 = some h2 → h2 ≠ "" →
        ((m2 ++ "_wer", (compute_metrics (normalize r2) (normalize h2)).wer) ∈
          rowCols detailed k2 r2 hyps ∧
        (⟨k2, rowCols detailed k2 r2 hyps⟩ : Row) ∈ rows)) :=
  skip_core detailed gt hyps k reference m hset hgt hm hnodup (Or.inl hmiss)

/-- Claim C10: a (file, model) pair whose hypothesis entry is present but is
the empty string (falsy in `if hypothesis:`) is treated exactly like a
missing hypothesis: warned about and scored nowhere, with all `{model}_*`
columns absent from that row. -/
theorem falsy_hypothesis_skipped (detailed : Bool) (gt : List (String × String))
    (hyps : List (String × List (String × String))) (k reference m : String)
    (hset : List (String × String)) (hgt : (k, reference) ∈ gt) (hm : (m, hset) ∈ hyps)
    (hnodup : (hyps.map Prod.fst).Nodup)
    (hmiss : List.lookup k hset = some "") :
    ∃ rows warns,
      calculate_wer gt hyps detailed =
        Except.ok (rows ++ [summaryRow "AVERAGE" mean rows, summaryRow "MEDIAN" median rows],
          warns) ∧
      (⟨k, rowCols detailed k reference hyps⟩ : Row) ∈ rows ∧
      (k, m) ∈ warns ∧
      (∀ s ∈ colSuffixes, ∀ v : ℚ, (m ++ s, v) ∉ rowCols detailed k reference hyps) ∧
      (∀ k2 r2 m2 hset2 h2, (k2, r2) ∈ gt → (m2, hset2) ∈ hyps →
        List.lookup k2 hset2 = some h2 → h2 ≠ "" →
        ((m2 ++ "_wer", (compute_metrics (normalize r2) (normalize h2)).wer) ∈
          rowCols detailed k2 r2 hyps ∧
        (⟨k2, rowCols detailed k2 r2 hyps⟩ : Row) ∈ rows)) :=
  skip_core detailed gt hyps k reference m hset hgt hm hnodup (Or.inr hmiss)

/-- Claim C5 witness: model "m1" has no entry for file "k1"; the theorem is
applied to this concrete two-file, two-model input. -/
theorem missing_hypothesis_skipped_witness :
    (("k1", "a") ∈ [("k1", "a"), ("k2", "b")] ∧
      ("m1", [("k2", "x")]) ∈ [("m1", [("k2", "x")]), ("m2", [("k1", "y"), ("k2", "z")])] ∧
      (([("m1", [("k2", "x")]), ("m2", [("k1", "y"), ("k2", "z")])]).map Prod.fst).Nodup ∧
      List.lookup "k1" [("k2", "x")] = none) ∧
    (∃ rows warns,
      calculate_wer [("k1", "a"), ("k2", "b")] [("m1", [("k2", "x")]), ("m2", [("k1", "y"), ("k2", "z")])] true =
        Except.ok (rows ++ [summaryRow "AVERAGE" mean rows, summaryRow "MEDIAN" median rows],
          warns) ∧
      (⟨"k1", rowCols true "k1" "a" [("m1", [("k2", "x")]), ("m2", [("k1", "y"), ("k2", "z")])]⟩ : Row) ∈ rows ∧
      ("k1", "m1") ∈ warns ∧
      (∀ s ∈ colSuffixes, ∀ v : ℚ, ("m1" ++ s, v) ∉ rowCols true "k1" "a" [("m1", [("k2", "x")]), ("m2", [("k1", "y"), ("k2", "z")])]) ∧
      (∀ k2 r2 m2 hset2 h2, (k2, r2) ∈ [("k1", "a"), ("k2", "b")] → (m2, hset2) ∈ [("m1", [("k2", "x")]), ("m2", [("k1", "y"), ("k2", "z")])] →
        List.lookup k2 hset2 = some h2 → h2 ≠ "" →
        ((m2 ++ "_wer", (compute_metrics (normalize r2) (normalize h2)).wer) ∈
          rowCols true k2 r2 [("m1", [("k2", "x")]), ("m2", [("k1", "y"), ("k2", "z")])] ∧
        (⟨k2, rowCols true k2 r2 [("m1", [("k2", "x")]), ("m2", [("k1", "y"), ("k2", "z")])]⟩ : Row) ∈ rows))) :=
  ⟨⟨by decide, by decide, by decide, by decide⟩,
    missing_hypothesis_skipped true [("k1", "a"), ("k2", "b")] [("m1", [("k2", "x")]), ("m2", [("k1", "y"), ("k2", "z")])] "k1" "a" "m1" [("k2", "x")]
      (by decide) (by decide) (by decide) (by decide)⟩

/-- Claim C10 witness: model "m1" maps file "k1" to the empty string; the
theorem is applied to this concrete input. -/
theorem falsy_hypothesis_skipped_witness :
    (("k1", "a") ∈ [("k1", "a")] ∧
      ("m1", [("k1", "")]) ∈ [("m1", [("k1", "")]), ("m2", [("k1", "y")])] ∧
      (([("m1", [("k1", "")]), ("m2", [("k1", "y")])]).map Prod.fst).Nodup ∧
      List.lookup "k1" [("k1", "")] = some "") ∧
    (∃ rows warns,
      calculate_wer [("k1", "a")] [("m1", [("k1", "")]), ("m2", [("k1", "y")])] true =
        Except.ok (rows ++ [summaryRow "AVERAGE" mean rows, summaryRow "MEDIAN" median rows],
          warns) ∧
      (⟨"k1", rowCols true "k1" "a" [("m1", [("k1", "")]), ("m2", [("k1", "y")])]⟩ : Row) ∈ rows ∧
      ("k1", "m1") ∈ warns ∧
      (∀ s ∈ colSuffixes, ∀ v : ℚ, ("m1" ++ s, v) ∉ rowCols true "k1" "a" [("m1", [("k1", "")]), ("m2", [("k1", "y")])]) ∧
      (∀ k2 r2 m2 hset2 h2, (k2, r2) ∈ [("k1", "a")] → (m2, hset2) ∈ [("m1", [("k1", "")]), ("m2", [("k1", "y")])] →
        List.lookup k2 hset2 = some h2 → h2 ≠ "" →
        ((m2 ++ "_wer", (compute_metrics (normalize r2) (normalize h2)).wer) ∈
          rowCols true k2 r2 [("m1", [("k1", "")]), ("m2", [("k1", "y")])] ∧
        (⟨k2, rowCols true k2 r2 [("m1", [("k1", "")]), ("m2", [("k1", "y")])]⟩ : Row) ∈ rows))) :=
  ⟨⟨by decide, by decide, by decide, by decide⟩,
    falsy_hypothesis_skipped true [("k1", "a")] [("m1", [("k1", "")]), ("m2", [("k1", "y")])] "k1" "a" "m1" [("k1", "")]
      (by decide) (by decide) (by decide) (by decide)⟩

/-! ### Summary-row helpers -/

theorem lookup_map_self (f : String → ℚ) :
    ∀ (L : List String) (c : String), c ∈ L →
      List.lookup c (L.map (fun a => (a, f a))) = some (f c) := by
  intro L
  induction L with
  | nil => intro c hc; exact absurd hc (List.not_mem_nil _)
  | cons a rest ih =>
    intro c hc
    by_cases hca : c = a
    · subst hca
      exact lookup_cons_self c (f c) _
    · have hcr : c ∈ rest := by
        rcases List.mem_cons.mp hc with h | h
        · exact absurd h hca
        · exact h
      rw [show (a :: rest).map (fun a => (a, f a)) = (a, f a) :: rest.map (fun a => (a, f a))
        from rfl, lookup_cons_ne c a (f a) _ hca]
      exact ih c hcr

/-- The arithmetic-mean characterization: the mean times the number of
present values gives back their sum. -/
theorem mean_mul_length (l : List ℚ) : mean l * (l.length : ℚ) = l.sum := by
  rcases eq_or_ne l.length 0 with h | h
  · have hl : l = [] := List.length_eq_zero.mp h
    subst hl
    simp [mean]
  · have hq : (l.length : ℚ) ≠ 0 := Nat.cast_ne_zero.mpr h
    rw [mean, div_mul_cancel₀ _ hq]

/-- The median is the middle of a sorted rearrangement of the values (or the
average of the two middles when their number is even). -/
theorem median_spec (l : List ℚ) :
    ∃ s : List ℚ, s.Perm l ∧ s.Sorted (· ≤ ·) ∧
      median l = (if l.length % 2 = 1 then s.getD (l.length / 2) 0
        else (s.getD (l.length / 2 - 1) 0 + s.getD (l.length / 2) 0) / 2) := by
  refine ⟨l.mergeSort (fun a b => decide (a ≤ b)), List.mergeSort_perm l _, ?_, rfl⟩
  have htrans : ∀ a b c : ℚ, (fun a b => decide (a ≤ b)) a b = true →
      (fun a b => decide (a ≤ b)) b c = true → (fun a b => decide (a ≤ b)) a c = true := by
    intro a b c hab hbc
    simp only [decide_eq_true_eq] at hab hbc ⊢
    exact le_trans hab hbc
  have htotal : ∀ a b : ℚ,
      ((fun a b => decide (a ≤ b)) a b || (fun a b => decide (a ≤ b)) b a) = true := by
    intro a b
    rcases le_total a b with h | h <;> simp [h]
  have hp := @List.sorted_mergeSort ℚ (fun a b => decide (a ≤ b)) htrans htotal l
  exact hp.imp (fun h => of_decide_eq_true h)

/-- Claim C6: after the per-recording rows, exactly the two synthetic rows
keyed "AVERAGE" and "MEDIAN" are appended; for every numeric column the
AVERAGE row holds the arithmetic mean and the MEDIAN row the median of the
values present in that column across the non-summary rows, absent values
being ignored. -/
theorem summary_rows_mean_median (gt : List (String × String))
    (hyps : List (String × List (String × String))) (detailed : Bool)
    (hg : gt ≠ []) (hh : hyps ≠ []) :
    ∃ rows warns,
      calculate_wer gt hyps detailed =
        Except.ok (rows ++ [summaryRow "AVERAGE" mean rows, summaryRow "MEDIAN" median rows],
          warns) ∧
      (summaryRow "AVERAGE" mean rows).file = "AVERAGE" ∧
      (summaryRow "MEDIAN" median rows).file = "MEDIAN" ∧
      rows.length = gt.length ∧
      ∀ c ∈ allNumericCols rows,
        (List.lookup c (summaryRow "AVERAGE" mean rows).cols =
            some (mean (colValues rows c)) ∧
          mean (colValues rows c) * ((colValues rows c).length : ℚ) =
            (colValues rows c).sum) ∧
        (List.lookup c (summaryRow "MEDIAN" median rows).cols =
            some (median (colValues rows c)) ∧
          ∃ s : List ℚ, s.Perm (colValues rows c) ∧ s.Sorted (· ≤ ·) ∧
            median (colValues rows c) =
              (if (colValues rows c).length % 2 = 1 then
                s.getD ((colValues rows c).length / 2) 0
              else (s.getD ((colValues rows c).length / 2 - 1) 0 +
                s.getD ((colValues rows c).length / 2) 0) / 2)) := by
  refine ⟨gt.map (fun p => (⟨p.1, rowCols detailed p.1 p.2 hyps⟩ : Row)),
    gt.flatMap (fun p => rowWarnings p.1 hyps), ?_, rfl, rfl, by simp, ?_⟩
  · simp [calculate_wer, hg, hh]
  · intro c hc
    refine ⟨⟨lookup_map_self _ _ c hc, mean_mul_length _⟩,
      lookup_map_self _ _ c hc, median_spec _⟩

/-- Claim C6 witness: the summary behaviour at a concrete one-file,
one-model input. -/
theorem summary_rows_mean_median_witness :
    ([("k", "a b")] ≠ ([] : List (String × String)) ∧
      [("m", [("k", "a c")])] ≠ ([] : List (String × List (String × String)))) ∧
    (∃ rows warns,
      calculate_wer [("k", "a b")] [("m", [("k", "a c")])] true =
        Except.ok (rows ++ [summaryRow "AVERAGE" mean rows, summaryRow "MEDIAN" median rows],
          warns) ∧
      (summaryRow "AVERAGE" mean rows).file = "AVERAGE" ∧
      (summaryRow "MEDIAN" median rows).file = "MEDIAN" ∧
      rows.length = [("k", "a b")].length ∧
      ∀ c ∈ allNumericCols rows,
        (List.lookup c (summaryRow "AVERAGE" mean rows).cols =
            some (mean (colValues rows c)) ∧
          mean (colValues rows c) * ((colValues rows c).length : ℚ) =
            (colValues rows c).sum) ∧
        (List.lookup c (summaryRow "MEDIAN" median rows).cols =
            some (median (colValues rows c)) ∧
          ∃ s : List ℚ, s.Perm (colValues rows c) ∧ s.Sorted (· ≤ ·) ∧
            median (colValues rows c) =
              (if (colValues rows c).length % 2 = 1 then
                s.getD ((colValues rows c).length / 2) 0
              else (s.getD ((colValues rows c).length / 2 - 1) 0 +
                s.getD ((colValues rows c).length / 2) 0) / 2))) :=
  ⟨⟨by decide, by decide⟩,
    summary_rows_mean_median [("k", "a b")] [("m", [("k", "a c")])] true
      (by decide) (by decide)⟩

/-! ### Hypothesis-only recordings are ignored -/

theorem lookup_filter_contains (keys : List String) (k : String)
    (hk : keys.contains k = true) :
    ∀ l : List (String × String),
      List.lookup k (l.filter (fun p => keys.contains p.1)) = List.lookup k l := by
  intro l
  induction l with
  | nil => rfl
  | cons p rest ih =>
    obtain ⟨a, b⟩ := p
    by_cases hka : k = a
    · subst hka
      rw [List.filter_cons, if_pos hk, lookup_cons_self, lookup_cons_self]
    · rw [List.filter_cons]
      cases hca : keys.contains a
      · rw [if_neg (by simp [hca])]
        rw [ih, lookup_cons_ne k a b rest hka]
      · rw [if_pos rfl]
        rw [lookup_cons_ne k a b _ hka, lookup_cons_ne k a b rest hka, ih]

theorem rowCols_restrict (detailed : Bool) (keys : List String) (k reference : String)
    (hk : keys.contains k = true) :
    ∀ hyps : List (String × List (String × String)),
      rowCols detailed k reference
        (hyps.map (fun mh => (mh.1, mh.2.filter (fun p => keys.contains p.1)))) =
      rowCols detailed k reference hyps := by
  intro hyps
  induction hyps with
  | nil => rfl
  | cons mh rest ih =>
    obtain ⟨m1, hs1⟩ := mh
    show pairCols detailed reference m1
        (List.lookup k (hs1.filter (fun p => keys.contains p.1))) ++ _ =
      pairCols detailed reference m1 (List.lookup k hs1) ++ _
    rw [lookup_filter_contains keys k hk hs1, ih]

theorem rowWarnings_restrict (keys : List String) (k : String)
    (hk : keys.contains k = true) :
    ∀ hyps : List (String × List (String × String)),
      rowWarnings k
        (hyps.map (fun mh => (mh.1, mh.2.filter (fun p => keys.contains p.1)))) =
      rowWarnings k hyps := by
  intro hyps
  induction hyps with
  | nil => rfl
  | cons mh rest ih =>
    obtain ⟨m1, hs1⟩ := mh
    show pairWarn k m1 (List.lookup k (hs1.filter (fun p => keys.contains p.1))) ++ _ =
      pairWarn k m1 (List.lookup k hs1) ++ _
    rw [lookup_filter_contains keys k hk hs1, ih]

/-- Claim C7: every non-summary result row is keyed by a ground-truth key,
in order, with exactly one row per ground-truth key; recordings present only
in some hypothesis mapping produce no row and no column value anywhere (the
output is unchanged if hypothesis entries for unknown keys are removed). -/
theorem result_rows_keyed_by_ground_truth (gt : List (String × String))
    (hyps : List (String × List (String × String))) (detailed : Bool)
    (hg : gt ≠ []) (hh : hyps ≠ []) (hnodup : (gt.map Prod.fst).Nodup) :
    ∃ rows warns,
      calculate_wer gt hyps detailed =
        Except.ok (rows ++ [summaryRow "AVERAGE" mean rows, summaryRow "MEDIAN" median rows],
          warns) ∧
      rows.map Row.file = gt.map Prod.fst ∧
      (∀ kk ∈ gt.map Prod.fst, List.count kk (rows.map Row.file) = 1) ∧
      calculate_wer gt hyps detailed =
        calculate_wer gt
          (hyps.map (fun mh =>
            (mh.1, mh.2.filter (fun p => (gt.map Prod.fst).contains p.1)))) detailed := by
  have hfiles : (gt.map (fun p => (⟨p.1, rowCols detailed p.1 p.2 hyps⟩ : Row))).map Row.file =
      gt.map Prod.fst := by
    simp
  refine ⟨gt.map (fun p => (⟨p.1, rowCols detailed p.1 p.2 hyps⟩ : Row)),
    gt.flatMap (fun p => rowWarnings p.1 hyps), ?_, hfiles, ?_, ?_⟩
  · simp [calculate_wer, hg, hh]
  · intro kk hkk
    rw [hfiles]
    exact List.count_eq_one_of_mem hnodup hkk
  · have hh2 : hyps.map (fun mh =>
        (mh.1, mh.2.filter (fun p => (gt.map Prod.fst).contains p.1))) ≠ [] := by
      simp [hh]
    simp only [calculate_wer, if_neg hg, if_neg hh, if_neg hh2]
    have hrows : ∀ p ∈ gt,
        (⟨p.1, rowCols detailed p.1 p.2 hyps⟩ : Row) =
        ⟨p.1, rowCols detailed p.1 p.2 (hyps.map (fun mh =>
          (mh.1, mh.2.filter (fun p => (gt.map Prod.fst).contains p.1))))⟩ := by
      intro p hp
      have hk : (gt.map Prod.fst).contains p.1 = true :=
        List.elem_iff.mpr (List.mem_map.mpr ⟨p, hp, rfl⟩)
      rw [rowCols_restrict detailed (gt.map Prod.fst) p.1 p.2 hk hyps]
    have hwarn : ∀ p ∈ gt,
        rowWarnings p.1 hyps =
        rowWarnings p.1 (hyps.map (fun mh =>
          (mh.1, mh.2.filter (fun p => (gt.map Prod.fst).contains p.1)))) := by
      intro p hp
      have hk : (gt.map Prod.fst).contains p.1 = true :=
        List.elem_iff.mpr (List.mem_map.mpr ⟨p, hp, rfl⟩)
      rw [rowWarnings_restrict (gt.map Prod.fst) p.1 hk hyps]
    rw [List.map_congr_left hrows, List.flatMap_congr hwarn]

/-- Claim C7 witness: the keying and the irrelevance of a hypothesis-only
recording ("k9") at a concrete input. -/
theorem result_rows_keyed_by_ground_truth_witness :
    ([("k1", "a"), ("k2", "b")] ≠ ([] : List (String × String)) ∧
      [("m", [("k1", "x"), ("k9", "zzz")])] ≠
        ([] : List (String × List (String × String))) ∧
      (([("k1", "a"), ("k2", "b")] : List (String × String)).map Prod.fst).Nodup) ∧
    (∃ rows warns,
      calculate_wer [("k1", "a"), ("k2", "b")] [("m", [("k1", "x"), ("k9", "zzz")])] true =
        Except.ok (rows ++ [summaryRow "AVERAGE" mean rows, summaryRow "MEDIAN" median rows],
          warns) ∧
      rows.map Row.file =
        ([("k1", "a"), ("k2", "b")] : List (String × String)).map Prod.fst ∧
      (∀ kk ∈ ([("k1", "a"), ("k2", "b")] : List (String × String)).map Prod.fst,
        List.count kk (rows.map Row.file) = 1) ∧
      calculate_wer [("k1", "a"), ("k2", "b")] [("m", [("k1", "x"), ("k9", "zzz")])] true =
        calculate_wer [("k1", "a"), ("k2", "b")]
          (([("m", [("k1", "x"), ("k9", "zzz")])] :
              List (String × List (String × String))).map (fun mh =>
            (mh.1, mh.2.filter (fun p =>
              (([("k1", "a"), ("k2", "b")] : List (String × String)).map
                Prod.fst).contains p.1)))) true) :=
  ⟨⟨by decide, by decide, by decide⟩,
    result_rows_keyed_by_ground_truth [("k1", "a"), ("k2", "b")]
      [("m", [("k1", "x"), ("k9", "zzz")])] true (by decide) (by decide) (by decide)⟩

end AsrBench
